import Mathlib

/-!
Verification of the BackLine tour settlement computation.

This file gives a shallow embedding, over exact rational and integer
arithmetic, of the settlement/finance logic of the BackLine repository:

* src/app/tours/[tourId]/settlement/page.tsx   (namespace SettlementPage)
* src/app/api/tours/[tourId]/finance-export/route.ts   (namespace FinanceExport)

Currency amounts are minor units (cents) embedded as integers; percentages
are embedded as rationals.  JavaScript's Math.round (round half toward
positive infinity) is embedded as jsRound, and the source's round2 helper,
which adds Number.EPSILON before rounding, is embedded with that epsilon
kept as the exact rational 2 ^ (-52).
-/

namespace BackLine

/-- Number.EPSILON of JavaScript, the exact rational 2 ^ (-52).  The round2
helper in both source files adds it before rounding. -/
def numberEpsilon : ℚ := 1 / 4503599627370496

/-- Math.round of JavaScript on exact rational inputs: rounding half toward
positive infinity, that is the floor of the input plus one half. -/
def jsRound (q : ℚ) : ℤ := ⌊q + 1 / 2⌋

/-- Row of the cuts table as selected by both source files: an optional
band_member_id key and the two nullable percentage columns cut_percent and
percent. -/
structure CutRow where
  band_member_id : Option String
  cut_percent : Option ℚ
  percent : Option ℚ

/-- Derived settlement totals computed identically (and independently) by the
settlement page and by the finance-export route. -/
structure Totals where
  managerFeeCents : ℤ
  agentFeeCents : ℤ
  grossFeesCents : ℤ
  netAfterFeesAndExpensesCents : ℤ
  savingsAmountCents : ℤ
  distributableNetCents : ℤ

namespace SettlementPage

/-- round2 from src/app/tours/[tourId]/settlement/page.tsx:
Math.round((n + Number.EPSILON) * 100) / 100. -/
def round2 (n : ℚ) : ℚ := (jsRound ((n + numberEpsilon) * 100) : ℚ) / 100

/-- makeEqualSplits from src/app/tours/[tourId]/settlement/page.tsx: an equal
split of 100 across count members, each member receiving
base = round2(100 / count) and the final slot being replaced by
round2(base + diff) where diff = round2(100 - sum of the bases). -/
def makeEqualSplits (count : ℕ) : List ℚ :=
  if count = 0 then []
  else
    let base := round2 (100 / (count : ℚ))
    let splits := List.replicate count base
    let diff := round2 (100 - splits.sum)
    splits.set (count - 1) (round2 (splits.getD (count - 1) 0 + diff))

/-- Fee, net, savings and distributable arithmetic of the settlement page
(the const chain managerFeeCents .. distributableNetCents). -/
def computeTotals (totalIncomeCents totalExpenseCents : ℤ)
    (savingsPercent managerPercent agentPercent : ℚ) : Totals :=
  let managerFeeCents := jsRound ((totalIncomeCents : ℚ) * (managerPercent / 100))
  let agentFeeCents := jsRound ((totalIncomeCents : ℚ) * (agentPercent / 100))
  let grossFeesCents := managerFeeCents + agentFeeCents
  let netAfterFeesAndExpensesCents := totalIncomeCents - grossFeesCents - totalExpenseCents
  let savingsAmountCents :=
    if 0 < netAfterFeesAndExpensesCents
    then jsRound ((netAfterFeesAndExpensesCents : ℚ) * (savingsPercent / 100))
    else 0
  let distributableNetCents := netAfterFeesAndExpensesCents - savingsAmountCents
  { managerFeeCents := managerFeeCents
    agentFeeCents := agentFeeCents
    grossFeesCents := grossFeesCents
    netAfterFeesAndExpensesCents := netAfterFeesAndExpensesCents
    savingsAmountCents := savingsAmountCents
    distributableNetCents := distributableNetCents }

/-- Resolution of one member's displayed percentage on the settlement page:
cutPercent = c ? Number(c.cut_percent ?? c.percent ?? 0) : fallback, where
the fallback is the member's equal-split entry. -/
def pageCutPercent (c : Option CutRow) (fallback : ℚ) : ℚ :=
  match c with
  | some c => c.cut_percent.getD (c.percent.getD 0)
  | none => fallback

/-- Dictionary of cut rows keyed by band_member_id as built by the settlement
page: rows with a null band_member_id are skipped, later rows overwrite
earlier ones. -/
def cutByMemberId (cuts : List CutRow) : String → Option CutRow :=
  cuts.foldl
    (fun acc c =>
      match c.band_member_id with
      | some id => fun k => if k = id then some c else acc k
      | none => acc)
    (fun _ => none)

/-- Member rows of the settlement page in iteration order: the map over
members with index, resolving each percentage via pageCutPercent against
equalSplits[index] ?? 0. -/
def resolvePercentsAux (cutFor : String → Option CutRow) (splits : List ℚ) :
    ℕ → List String → List ℚ
  | _, [] => []
  | index, m :: rest =>
      pageCutPercent (cutFor m) (splits.getD index 0) ::
        resolvePercentsAux cutFor splits (index + 1) rest

/-- Displayed percentages of the settlement page for the given active members
(in creation order) and cut rows. -/
def resolvePercents (members : List String) (cuts : List CutRow) : List ℚ :=
  resolvePercentsAux (cutByMemberId cuts) (makeEqualSplits members.length) 0 members

/-- Per-member payout of the settlement page:
Math.round(distributableNetCents * (cutPercent / 100)). -/
def payoutCents (distributableNetCents : ℤ) (cutPercent : ℚ) : ℤ :=
  jsRound ((distributableNetCents : ℚ) * (cutPercent / 100))

/-- totalCuts of the settlement page: round2 of the sum of the displayed row
percentages (every embedded rational is finite, so the Number.isFinite guard
of the source is the identity here). -/
def totalCuts (rows : List ℚ) : ℚ := round2 rows.sum

/-- cutsValid of the settlement page: Math.abs(totalCuts - 100) <= 0.01. -/
def cutsValid (rows : List ℚ) : Prop := |totalCuts rows - 100| ≤ 1 / 100

instance : DecidablePred cutsValid := fun rows => by
  unfold cutsValid
  infer_instance

/-- Outcome of the saveCuts handler: a silent no-op (no permission), a
rejection with the human-readable status message, or the persisted payload of
cut_percent values. -/
inductive SaveResult where
  | noop : SaveResult
  | rejected : String → SaveResult
  | saved : List ℚ → SaveResult

/-- saveCuts from the settlement page: returns silently without edit rights,
rejects when cutsValid fails, rejects when some percentage is negative, and
otherwise upserts one row per member with cut_percent = round2(cutPercent). -/
def saveCuts (canEdit : Bool) (rows : List ℚ) : SaveResult :=
  if !canEdit then SaveResult.noop
  else if ¬ cutsValid rows then SaveResult.rejected "Cuts must total 100.00% before saving."
  else if ∃ r ∈ rows, r < 0 then SaveResult.rejected "Cut percentages must be 0 or greater."
  else SaveResult.saved (rows.map round2)

end SettlementPage

namespace FinanceExport

/-- round2 from src/app/api/tours/[tourId]/finance-export/route.ts, textually
identical to the settlement page's helper. -/
def round2 (n : ℚ) : ℚ := (jsRound ((n + numberEpsilon) * 100) : ℚ) / 100

/-- makeEqualSplits from the finance-export route, textually identical to the
settlement page's helper. -/
def makeEqualSplits (count : ℕ) : List ℚ :=
  if count = 0 then []
  else
    let base := round2 (100 / (count : ℚ))
    let splits := List.replicate count base
    let diff := round2 (100 - splits.sum)
    splits.set (count - 1) (round2 (splits.getD (count - 1) 0 + diff))

/-- Fee, net, savings and distributable arithmetic of the finance-export
route (the const chain managerFeeCents .. distributableNetCents in GET). -/
def computeTotals (totalIncomeCents totalExpenseCents : ℤ)
    (savingsPercent managerPercent agentPercent : ℚ) : Totals :=
  let managerFeeCents := jsRound ((totalIncomeCents : ℚ) * (managerPercent / 100))
  let agentFeeCents := jsRound ((totalIncomeCents : ℚ) * (agentPercent / 100))
  let grossFeesCents := managerFeeCents + agentFeeCents
  let netAfterFeesAndExpensesCents := totalIncomeCents - grossFeesCents - totalExpenseCents
  let savingsAmountCents :=
    if 0 < netAfterFeesAndExpensesCents
    then jsRound ((netAfterFeesAndExpensesCents : ℚ) * (savingsPercent / 100))
    else 0
  let distributableNetCents := netAfterFeesAndExpensesCents - savingsAmountCents
  { managerFeeCents := managerFeeCents
    agentFeeCents := agentFeeCents
    grossFeesCents := grossFeesCents
    netAfterFeesAndExpensesCents := netAfterFeesAndExpensesCents
    savingsAmountCents := savingsAmountCents
    distributableNetCents := distributableNetCents }

/-- Numeric value the route stores per cut row:
Number(cut.cut_percent ?? cut.percent ?? 0). -/
def routeCutValue (c : CutRow) : ℚ := c.cut_percent.getD (c.percent.getD 0)

/-- Dictionary of numbers keyed by band_member_id as built by the route's
cuts.forEach: rows with a null band_member_id are skipped, later rows
overwrite earlier ones, and the stored value is routeCutValue. -/
def cutByMemberId (cuts : List CutRow) : String → Option ℚ :=
  cuts.foldl
    (fun acc c =>
      match c.band_member_id with
      | some id => fun k => if k = id then some (routeCutValue c) else acc k
      | none => acc)
    (fun _ => none)

/-- Member rows of the route's payout section in iteration order:
cutPercent = cutByMemberId[member.id] ?? (equalSplits[index] ?? 0). -/
def resolvePercentsAux (stored : String → Option ℚ) (splits : List ℚ) :
    ℕ → List String → List ℚ
  | _, [] => []
  | index, m :: rest =>
      (stored m).getD (splits.getD index 0) ::
        resolvePercentsAux stored splits (index + 1) rest

/-- Exported percentages of the finance-export route for the given active
members (in creation order) and cut rows. -/
def resolvePercents (members : List String) (cuts : List CutRow) : List ℚ :=
  resolvePercentsAux (cutByMemberId cuts) (makeEqualSplits members.length) 0 members

/-- Per-member payout of the finance-export route:
Math.round(distributableNetCents * (cutPercent / 100)). -/
def payoutCents (distributableNetCents : ℤ) (cutPercent : ℚ) : ℤ :=
  jsRound ((distributableNetCents : ℚ) * (cutPercent / 100))

end FinanceExport

/-- Modelled from the spec: rounding half-up to two decimal places, exactly
as the spec's guarantee section words it, with no epsilon adjustment.  Used
only to compare the source's round2 against the specified rounding. -/
def specRound2 (q : ℚ) : ℚ := (⌊q * 100 + 1 / 2⌋ : ℚ) / 100

end BackLine

namespace BackLine

open SettlementPage

lemma jsRound_le (q : ℚ) : (jsRound q : ℚ) ≤ q + 1 / 2 :=
  Int.floor_le (q + 1 / 2)

lemma lt_jsRound (q : ℚ) : q - 1 / 2 < (jsRound q : ℚ) := by
  have h := Int.sub_one_lt_floor (q + 1 / 2)
  unfold jsRound
  linarith

lemma abs_jsRound_sub_le (q : ℚ) : |(jsRound q : ℚ) - q| ≤ 1 / 2 := by
  rw [abs_le]
  constructor
  · have := lt_jsRound q
    linarith
  · have := jsRound_le q
    linarith

lemma round2_intCast_div_100 (k : ℤ) : round2 ((k : ℚ) / 100) = (k : ℚ) / 100 := by
  unfold SettlementPage.round2 jsRound
  have h1 : ((k : ℚ) / 100 + numberEpsilon) * 100 + 1 / 2
      = (100 * numberEpsilon + 1 / 2) + (k : ℚ) := by ring
  rw [h1, Int.floor_add_int]
  have h2 : ⌊(100 * numberEpsilon + 1 / 2 : ℚ)⌋ = 0 := by
    norm_num [numberEpsilon]
  rw [h2]
  push_cast
  ring

lemma round2_shape (q : ℚ) : ∃ k : ℤ, round2 q = (k : ℚ) / 100 :=
  ⟨jsRound ((q + numberEpsilon) * 100), rfl⟩

lemma computeTotals_managerFee (inc exp : ℤ) (sp mp ap : ℚ) :
    (computeTotals inc exp sp mp ap).managerFeeCents = jsRound ((inc : ℚ) * (mp / 100)) := rfl

lemma computeTotals_agentFee (inc exp : ℤ) (sp mp ap : ℚ) :
    (computeTotals inc exp sp mp ap).agentFeeCents = jsRound ((inc : ℚ) * (ap / 100)) := rfl

lemma computeTotals_net (inc exp : ℤ) (sp mp ap : ℚ) :
    (computeTotals inc exp sp mp ap).netAfterFeesAndExpensesCents =
      inc - ((computeTotals inc exp sp mp ap).managerFeeCents
        + (computeTotals inc exp sp mp ap).agentFeeCents) - exp := rfl

lemma computeTotals_savings (inc exp : ℤ) (sp mp ap : ℚ) :
    (computeTotals inc exp sp mp ap).savingsAmountCents =
      if 0 < (computeTotals inc exp sp mp ap).netAfterFeesAndExpensesCents
      then jsRound (((computeTotals inc exp sp mp ap).netAfterFeesAndExpensesCents : ℚ)
        * (sp / 100))
      else 0 := rfl

lemma computeTotals_dist (inc exp : ℤ) (sp mp ap : ℚ) :
    (computeTotals inc exp sp mp ap).distributableNetCents =
      (computeTotals inc exp sp mp ap).netAfterFeesAndExpensesCents
        - (computeTotals inc exp sp mp ap).savingsAmountCents := rfl

/-- C1: the settlement computation satisfies the four spec equations
(manager fee, agent fee, net after fees and expenses, distributable net) for
all nonnegative minor-unit totals, and on the spec's concrete example
(income 100000, expenses 20000, manager 10, agent 5, savings 10) it yields
managerFee 10000, agentFee 5000, netAfterFees 65000, savings 6500 and
distributable 58500. -/
theorem claim1_settlement_arithmetic :
    (∀ (inc exp : ℤ), 0 ≤ inc → 0 ≤ exp → ∀ sp mp ap : ℚ,
      (computeTotals inc exp sp mp ap).managerFeeCents = jsRound ((inc : ℚ) * mp / 100) ∧
      (computeTotals inc exp sp mp ap).agentFeeCents = jsRound ((inc : ℚ) * ap / 100) ∧
      (computeTotals inc exp sp mp ap).netAfterFeesAndExpensesCents =
        inc - (computeTotals inc exp sp mp ap).managerFeeCents
          - (computeTotals inc exp sp mp ap).agentFeeCents - exp ∧
      (computeTotals inc exp sp mp ap).distributableNetCents =
        (computeTotals inc exp sp mp ap).netAfterFeesAndExpensesCents
          - (computeTotals inc exp sp mp ap).savingsAmountCents) ∧
    ((computeTotals 100000 20000 10 10 5).managerFeeCents = 10000 ∧
      (computeTotals 100000 20000 10 10 5).agentFeeCents = 5000 ∧
      (computeTotals 100000 20000 10 10 5).netAfterFeesAndExpensesCents = 65000 ∧
      (computeTotals 100000 20000 10 10 5).savingsAmountCents = 6500 ∧
      (computeTotals 100000 20000 10 10 5).distributableNetCents = 58500) := by
  constructor
  · intro inc exp _ _ sp mp ap
    refine ⟨?_, ?_, ?_, ?_⟩
    · rw [computeTotals_managerFee, mul_div_assoc]
    · rw [computeTotals_agentFee, mul_div_assoc]
    · rw [computeTotals_net]
      ring
    · rw [computeTotals_dist]
  · refine ⟨?_, ?_, ?_, ?_, ?_⟩ <;>
      norm_num [computeTotals_managerFee, computeTotals_agentFee, computeTotals_net,
        computeTotals_savings, computeTotals_dist, jsRound]

/-- Witness for C1: the universal part instantiated at the spec's concrete
example, with both nonnegativity hypotheses discharged. -/
theorem claim1_settlement_arithmetic_witness :
    (computeTotals 100000 20000 10 10 5).managerFeeCents =
      jsRound ((100000 : ℚ) * 10 / 100) ∧
    (computeTotals 100000 20000 10 10 5).agentFeeCents =
      jsRound ((100000 : ℚ) * 5 / 100) ∧
    (computeTotals 100000 20000 10 10 5).netAfterFeesAndExpensesCents =
      100000 - (computeTotals 100000 20000 10 10 5).managerFeeCents
        - (computeTotals 100000 20000 10 10 5).agentFeeCents - 20000 ∧
    (computeTotals 100000 20000 10 10 5).distributableNetCents =
      (computeTotals 100000 20000 10 10 5).netAfterFeesAndExpensesCents
        - (computeTotals 100000 20000 10 10 5).savingsAmountCents :=
  claim1_settlement_arithmetic.1 100000 20000 (by decide) (by decide) 10 10 5

/-- C5: whenever the net after fees and expenses is nonpositive, no savings
are withheld (savingsAmountCents is 0 for every savingsPercent in [0, 100])
and the nonpositive net propagates unchanged into distributableNetCents. -/
theorem claim5_no_savings_on_nonpositive_net (inc exp : ℤ) (sp mp ap : ℚ)
    (hsp0 : 0 ≤ sp) (hsp100 : sp ≤ 100)
    (hnet : (computeTotals inc exp sp mp ap).netAfterFeesAndExpensesCents ≤ 0) :
    (computeTotals inc exp sp mp ap).savingsAmountCents = 0 ∧
    (computeTotals inc exp sp mp ap).distributableNetCents =
      (computeTotals inc exp sp mp ap).netAfterFeesAndExpensesCents := by
  have hs : (computeTotals inc exp sp mp ap).savingsAmountCents = 0 := by
    rw [computeTotals_savings, if_neg (not_lt.mpr hnet)]
  exact ⟨hs, by rw [computeTotals_dist, hs, sub_zero]⟩

/-- Witness for C5: income 0, expenses 100, savingsPercent 50 gives a net of
-100, zero savings and a distributable net of -100. -/
theorem claim5_no_savings_on_nonpositive_net_witness :
    (computeTotals 0 100 50 0 0).savingsAmountCents = 0 ∧
    (computeTotals 0 100 50 0 0).distributableNetCents =
      (computeTotals 0 100 50 0 0).netAfterFeesAndExpensesCents :=
  claim5_no_savings_on_nonpositive_net 0 100 50 0 0 (by norm_num) (by norm_num)
    (by norm_num [computeTotals_net, computeTotals_managerFee, computeTotals_agentFee, jsRound])


lemma getD_replicate_of_lt {A : Type} (x d : A) (n i : ℕ) (h : i < n) :
    (List.replicate n x).getD i d = x := by
  induction n generalizing i with
  | zero => omega
  | succ m ih =>
    cases i with
    | zero => rfl
    | succ j =>
      rw [List.replicate_succ, List.getD_cons_succ]
      exact ih j (by omega)

lemma replicate_set_last {A : Type} (x v : A) (n : ℕ) (h : 1 ≤ n) :
    (List.replicate n x).set (n - 1) v = List.replicate (n - 1) x ++ [v] := by
  induction n with
  | zero => omega
  | succ m ih =>
    cases m with
    | zero => rfl
    | succ k =>
      have hstep : (List.replicate (k + 2) x).set (k + 1) v
          = x :: (List.replicate (k + 1) x).set k v := by
        rw [List.replicate_succ]
        rfl
      have htail := ih (by omega)
      simp only [Nat.add_sub_cancel] at htail ⊢
      rw [hstep, htail, List.replicate_succ]
      rfl

lemma makeEqualSplits_structure (count : ℕ) (h : 1 ≤ count) :
    makeEqualSplits count =
      List.replicate (count - 1) (round2 (100 / (count : ℚ))) ++
        [round2 (100 / (count : ℚ)) +
          round2 (100 - (List.replicate count (round2 (100 / (count : ℚ)))).sum)] := by
  rw [makeEqualSplits, if_neg (by omega : ¬ count = 0)]
  show (List.replicate count (round2 (100 / (count : ℚ)))).set (count - 1)
      (round2 ((List.replicate count (round2 (100 / (count : ℚ)))).getD (count - 1) 0
        + round2 (100 - (List.replicate count (round2 (100 / (count : ℚ)))).sum))) = _
  rw [getD_replicate_of_lt _ _ count (count - 1) (by omega)]
  obtain ⟨b, hb⟩ := round2_shape (100 / (count : ℚ))
  obtain ⟨d, hd⟩ := round2_shape (100 - (List.replicate count (round2 (100 / (count : ℚ)))).sum)
  have hsum : round2 (100 / (count : ℚ))
        + round2 (100 - (List.replicate count (round2 (100 / (count : ℚ)))).sum)
      = ((b + d : ℤ) : ℚ) / 100 := by
    rw [hd, hb]
    push_cast
    ring
  rw [hsum, round2_intCast_div_100, ← hsum, replicate_set_last _ _ count h]

/-- C2: for every member count of at least 1, the equal-split fallback
makeEqualSplits produces percentages that sum to exactly 100.00. -/
theorem claim2_equal_splits_sum_100 (count : ℕ) (h : 1 ≤ count) :
    (makeEqualSplits count).sum = 100 := by
  rw [makeEqualSplits_structure count h, List.sum_append, List.sum_replicate, nsmul_eq_mul,
    List.sum_cons, List.sum_nil, add_zero]
  obtain ⟨b, hb⟩ := round2_shape (100 / (count : ℚ))
  have hdiff : round2 (100 - (List.replicate count (round2 (100 / (count : ℚ)))).sum)
      = 100 - (count : ℚ) * round2 (100 / (count : ℚ)) := by
    rw [List.sum_replicate, nsmul_eq_mul, hb]
    have heq : (100 : ℚ) - (count : ℚ) * ((b : ℚ) / 100)
        = ((10000 - (count : ℤ) * b : ℤ) : ℚ) / 100 := by
      push_cast
      ring
    rw [heq, round2_intCast_div_100, ← heq]
  rw [hdiff]
  have hcast : ((count - 1 : ℕ) : ℚ) = (count : ℚ) - 1 := by
    have : (1 : ℕ) ≤ count := h
    push_cast [Nat.cast_sub this]
    ring
  rw [hcast]
  ring

/-- Witness for C2: the three-member equal split sums to exactly 100. -/
theorem claim2_equal_splits_sum_100_witness : (makeEqualSplits 3).sum = 100 :=
  claim2_equal_splits_sum_100 3 (by decide)

/-- C6: for every count of at least 1, makeEqualSplits assigns
base = round2(100 / count) to every member except that the last member in
iteration order additionally absorbs the remainder
round2(100 - sum of the bases); for three members the result is
[33.33, 33.33, 33.34] in member order. -/
theorem claim6_equal_split_shape :
    (∀ count : ℕ, 1 ≤ count →
      makeEqualSplits count =
        List.replicate (count - 1) (round2 (100 / (count : ℚ))) ++
          [round2 (100 / (count : ℚ)) +
            round2 (100 - (List.replicate count (round2 (100 / (count : ℚ)))).sum)]) ∧
    makeEqualSplits 3 = [33.33, 33.33, 33.34] := by
  constructor
  · exact makeEqualSplits_structure
  · norm_num [makeEqualSplits, SettlementPage.round2, jsRound, numberEpsilon,
      List.replicate, List.set, List.getD]

/-- Witness for C6: the universal part instantiated at three members. -/
theorem claim6_equal_split_shape_witness :
    makeEqualSplits 3 =
      List.replicate 2 (round2 (100 / (3 : ℚ))) ++
        [round2 (100 / (3 : ℚ)) +
          round2 (100 - (List.replicate 3 (round2 (100 / (3 : ℚ)))).sum)] :=
  claim6_equal_split_shape.1 3 (by decide)


lemma payout_sum_err (d : ℤ) (ps : List ℚ) :
    |(((ps.map (payoutCents d)).sum : ℤ) : ℚ) - (d : ℚ) * ps.sum / 100|
      ≤ (ps.length : ℚ) / 2 := by
  induction ps with
  | nil => simp
  | cons p ps ih =>
    rw [List.map_cons, List.sum_cons, List.sum_cons, List.length_cons]
    have h1 := abs_jsRound_sub_le ((d : ℚ) * (p / 100))
    have key : ((payoutCents d p + (ps.map (payoutCents d)).sum : ℤ) : ℚ)
        - (d : ℚ) * (p + ps.sum) / 100
        = (((payoutCents d p : ℤ) : ℚ) - (d : ℚ) * (p / 100))
          + ((((ps.map (payoutCents d)).sum : ℤ) : ℚ) - (d : ℚ) * ps.sum / 100) := by
      push_cast
      ring
    rw [key]
    calc |(((payoutCents d p : ℤ) : ℚ) - (d : ℚ) * (p / 100))
          + ((((ps.map (payoutCents d)).sum : ℤ) : ℚ) - (d : ℚ) * ps.sum / 100)|
        ≤ |((payoutCents d p : ℤ) : ℚ) - (d : ℚ) * (p / 100)|
          + |(((ps.map (payoutCents d)).sum : ℤ) : ℚ) - (d : ℚ) * ps.sum / 100| :=
          abs_add _ _
      _ ≤ 1 / 2 + (ps.length : ℚ) / 2 := add_le_add h1 ih
      _ = ((ps.length + 1 : ℕ) : ℚ) / 2 := by
          push_cast
          ring

/-- C3: whenever a list of per-member percentages sums to exactly 100.00, the
sum of the rounded per-member payouts differs from the distributable net by
at most count - 1 minor units. -/
theorem claim3_payout_sum_slack (d : ℤ) (ps : List ℚ) (hsum : ps.sum = 100) :
    |(ps.map (payoutCents d)).sum - d| ≤ (ps.length : ℤ) - 1 := by
  have hlen : 1 ≤ ps.length := by
    cases ps with
    | nil =>
      rw [List.sum_nil] at hsum
      norm_num at hsum
    | cons p ps => exact Nat.succ_le_succ (Nat.zero_le _)
  have herr := payout_sum_err d ps
  rw [hsum] at herr
  have hd100 : (d : ℚ) * 100 / 100 = (d : ℚ) := by ring
  rw [hd100] at herr
  have habs : ((|(ps.map (payoutCents d)).sum - d| : ℤ) : ℚ) ≤ (ps.length : ℚ) / 2 := by
    have hm : (((ps.map (payoutCents d)).sum - d : ℤ) : ℚ)
        = (((ps.map (payoutCents d)).sum : ℤ) : ℚ) - (d : ℚ) := by
      push_cast
      ring
    rw [Int.cast_abs, hm]
    exact herr
  have h2 : 2 * |(ps.map (payoutCents d)).sum - d| ≤ (ps.length : ℤ) := by
    have h2q : ((2 * |(ps.map (payoutCents d)).sum - d| : ℤ) : ℚ) ≤ ((ps.length : ℤ) : ℚ) := by
      push_cast
      push_cast at habs
      linarith
    exact_mod_cast h2q
  have hlen2 : (1 : ℤ) ≤ (ps.length : ℤ) := by exact_mod_cast hlen
  have hnn : 0 ≤ |(ps.map (payoutCents d)).sum - d| := abs_nonneg _
  omega

/-- Witness for C3: two members at 50 percent each of a distributable net of
101 minor units land within one minor unit of the total. -/
theorem claim3_payout_sum_slack_witness :
    |(([50, 50] : List ℚ).map (payoutCents 101)).sum - 101|
      ≤ (([50, 50] : List ℚ).length : ℤ) - 1 :=
  claim3_payout_sum_slack 101 [50, 50] (by norm_num)


/-- C4 counterexample: round2 is not round-half-up to 2 decimal places as a
function of its exact input.  At 1/200 - 2^(-52), which lies just below the
tie 0.005, round-half-up to 2 decimals gives 0.00 but round2 gives 0.01,
because round2 first shifts its input up by Number.EPSILON. -/
theorem claim4_round2_counterexample :
    round2 (1 / 200 - numberEpsilon) = 1 / 100 ∧
    specRound2 (1 / 200 - numberEpsilon) = 0 ∧
    round2 (1 / 200 - numberEpsilon) ≠ specRound2 (1 / 200 - numberEpsilon) := by
  refine ⟨?_, ?_, ?_⟩ <;>
    norm_num [SettlementPage.round2, specRound2, jsRound, numberEpsilon]

/-- C4 amended: every monetary rounding of the settlement computation
(manager fee, agent fee, savings amount, per-member payout) is round-half-up
to the nearest minor unit, with currency amounts kept as minor-unit integers;
the percentage rounding round2 equals round-half-up to 2 decimal places
applied to the input shifted up by Number.EPSILON, and agrees with exact
round-half-up on every input with at most three decimal places, negative and
tie inputs included. -/
theorem claim4_rounding_modes :
    (∀ (inc exp : ℤ) (sp mp ap : ℚ),
      (computeTotals inc exp sp mp ap).managerFeeCents =
        ⌊(inc : ℚ) * (mp / 100) + 1 / 2⌋ ∧
      (computeTotals inc exp sp mp ap).agentFeeCents =
        ⌊(inc : ℚ) * (ap / 100) + 1 / 2⌋ ∧
      (computeTotals inc exp sp mp ap).savingsAmountCents =
        (if 0 < (computeTotals inc exp sp mp ap).netAfterFeesAndExpensesCents
         then ⌊((computeTotals inc exp sp mp ap).netAfterFeesAndExpensesCents : ℚ)
            * (sp / 100) + 1 / 2⌋
         else 0)) ∧
    (∀ (d : ℤ) (p : ℚ), payoutCents d p = ⌊(d : ℚ) * (p / 100) + 1 / 2⌋) ∧
    (∀ q : ℚ, round2 q = specRound2 (q + numberEpsilon)) ∧
    (∀ k : ℤ, round2 ((k : ℚ) / 1000) = specRound2 ((k : ℚ) / 1000)) := by
  refine ⟨fun inc exp sp mp ap => ⟨rfl, rfl, rfl⟩, fun d p => rfl, fun q => rfl, ?_⟩
  intro k
  have hB0 : 0 ≤ k % 10 := Int.emod_nonneg k (by norm_num)
  have hB9 : k % 10 < 10 := Int.emod_lt_of_pos k (by norm_num)
  have hk : (k : ℚ) = 10 * ((k / 10 : ℤ) : ℚ) + ((k % 10 : ℤ) : ℚ) := by
    exact_mod_cast (Int.ediv_add_emod k 10).symm
  have e1 : ((k : ℚ) / 1000 + numberEpsilon) * 100 + 1 / 2
      = (((k % 10 : ℤ) : ℚ) / 10 + 100 * numberEpsilon + 1 / 2) + ((k / 10 : ℤ) : ℚ) := by
    rw [hk]
    ring
  have e2 : (k : ℚ) / 1000 * 100 + 1 / 2
      = (((k % 10 : ℤ) : ℚ) / 10 + 1 / 2) + ((k / 10 : ℤ) : ℚ) := by
    rw [hk]
    ring
  unfold SettlementPage.round2 specRound2 jsRound
  rw [e1, e2, Int.floor_add_int, Int.floor_add_int]
  have hfl : ⌊((k % 10 : ℤ) : ℚ) / 10 + 100 * numberEpsilon + 1 / 2⌋
      = ⌊((k % 10 : ℤ) : ℚ) / 10 + 1 / 2⌋ := by
    set B : ℤ := k % 10 with hB
    interval_cases B <;> norm_num [numberEpsilon]
  rw [hfl]

lemma saveCuts_true_unfold (rows : List ℚ) :
    saveCuts true rows =
      if ¬ cutsValid rows then SaveResult.rejected "Cuts must total 100.00% before saving."
      else if ∃ r ∈ rows, r < 0 then
        SaveResult.rejected "Cut percentages must be 0 or greater."
      else SaveResult.saved (rows.map round2) := rfl

/-- C7 counterexample: a single cut of 100.01 percent passes the save
validation and is persisted although it lies outside [0, 100]; the claimed
upper bound of 100 on individual percentages is not enforced by saveCuts. -/
theorem claim7_save_counterexample :
    saveCuts true [10001 / 100] = SaveResult.saved [10001 / 100] ∧
    ¬ ((10001 / 100 : ℚ) ≤ 100) := by
  constructor
  · have hvalid : cutsValid [10001 / 100] := by
      unfold SettlementPage.cutsValid SettlementPage.totalCuts
      have hs : ([10001 / 100] : List ℚ).sum = ((10001 : ℤ) : ℚ) / 100 := by norm_num
      rw [hs, round2_intCast_div_100, abs_le]
      norm_num
    have hneg : ¬ ∃ r ∈ ([10001 / 100] : List ℚ), r < 0 := by norm_num
    have hmap : (([10001 / 100] : List ℚ).map round2) = [10001 / 100] := by
      rw [List.map_cons, List.map_nil]
      have hs : (10001 / 100 : ℚ) = ((10001 : ℤ) : ℚ) / 100 := by norm_num
      rw [hs, round2_intCast_div_100]
    rw [saveCuts_true_unfold, if_neg (not_not_intro hvalid), if_neg hneg, hmap]
  · norm_num

/-- C7 amended: with edit rights, saveCuts persists the cuts if and only if
round2 of their sum is within 0.01 of 100.00 and no individual percentage is
negative; each violation is rejected with its human-readable status message
and nothing is persisted.  No upper bound of 100 on an individual percentage
is checked (nonnegativity plus the sum tolerance only bound each cut by
about 100.015). -/
theorem claim7_save_validation (rows : List ℚ) :
    ((∃ payload, saveCuts true rows = SaveResult.saved payload) ↔
      (cutsValid rows ∧ ∀ r ∈ rows, 0 ≤ r)) ∧
    (¬ cutsValid rows →
      saveCuts true rows = SaveResult.rejected "Cuts must total 100.00% before saving.") ∧
    (cutsValid rows → (∃ r ∈ rows, r < 0) →
      saveCuts true rows = SaveResult.rejected "Cut percentages must be 0 or greater.") ∧
    (cutsValid rows → (∀ r ∈ rows, 0 ≤ r) →
      saveCuts true rows = SaveResult.saved (rows.map round2)) := by
  rw [saveCuts_true_unfold]
  by_cases hv : cutsValid rows
  · rw [if_neg (not_not_intro hv)]
    by_cases hn : ∃ r ∈ rows, r < 0
    · rw [if_pos hn]
      obtain ⟨r0, hr0, hr0neg⟩ := hn
      exact ⟨⟨fun ⟨p, hp⟩ => SaveResult.noConfusion hp,
          fun ⟨_, hall⟩ => absurd (hall r0 hr0) (not_le.mpr hr0neg)⟩,
        fun hv2 => absurd hv hv2,
        fun _ _ => rfl,
        fun _ hall => absurd (hall r0 hr0) (not_le.mpr hr0neg)⟩
    · rw [if_neg hn]
      have hall : ∀ r ∈ rows, 0 ≤ r := by
        intro r hr
        by_contra hlt
        exact hn ⟨r, hr, not_le.mp hlt⟩
      exact ⟨⟨fun _ => ⟨hv, hall⟩, fun _ => ⟨rows.map round2, rfl⟩⟩,
        fun hv2 => absurd hv hv2,
        fun _ hn2 => absurd hn2 hn,
        fun _ _ => rfl⟩
  · rw [if_pos hv]
    exact ⟨⟨fun ⟨p, hp⟩ => SaveResult.noConfusion hp, fun ⟨hv2, _⟩ => absurd hv2 hv⟩,
      fun _ => rfl,
      fun hv2 _ => absurd hv2 hv,
      fun hv2 _ => absurd hv2 hv⟩

/-- Witness for C7: a single cut of 2 percent fails the total check and is
rejected with the corresponding status message. -/
theorem claim7_save_validation_witness :
    saveCuts true [(2 : ℚ)] = SaveResult.rejected "Cuts must total 100.00% before saving." :=
  (claim7_save_validation [2]).2.1 (by
    unfold SettlementPage.cutsValid SettlementPage.totalCuts
    have hs : ([(2 : ℚ)] : List ℚ).sum = ((200 : ℤ) : ℚ) / 100 := by norm_num
    rw [hs, round2_intCast_div_100]
    norm_num)


/-- C10: a member whose active cut record has both cut_percent and percent
null resolves to a share of 0 percent, not to the equal split; the
equal-split fallback is used only when the member has no cut record at all.
This holds on the settlement page (pageCutPercent over the stored row) and on
the finance-export route (getD over the stored number), and the dictionary
built from a single null-valued record really does hit that member. -/
theorem claim10_null_cut_record (m : String) (fallback : ℚ) :
    cutByMemberId [⟨some m, none, none⟩] m = some ⟨some m, none, none⟩ ∧
    pageCutPercent (some ⟨some m, none, none⟩) fallback = 0 ∧
    pageCutPercent none fallback = fallback ∧
    FinanceExport.cutByMemberId [⟨some m, none, none⟩] m = some 0 ∧
    (some (0 : ℚ)).getD fallback = 0 ∧
    (none : Option ℚ).getD fallback = fallback := by
  refine ⟨?_, rfl, rfl, ?_, rfl, rfl⟩
  · show (if m = m then some (⟨some m, none, none⟩ : CutRow) else none)
      = some ⟨some m, none, none⟩
    rw [if_pos rfl]
  · show (if m = m then some (FinanceExport.routeCutValue ⟨some m, none, none⟩) else none)
      = some 0
    rw [if_pos rfl]
    rfl

lemma cutByMemberId_agree (cuts : List CutRow) :
    ∀ (accP : String → Option CutRow) (accR : String → Option ℚ),
      (∀ k, accR k = (accP k).map FinanceExport.routeCutValue) →
      ∀ k,
        List.foldl
          (fun acc c =>
            match c.band_member_id with
            | some id => fun k => if k = id then some (FinanceExport.routeCutValue c) else acc k
            | none => acc) accR cuts k
        = (List.foldl
            (fun acc c =>
              match c.band_member_id with
              | some id => fun k => if k = id then some c else acc k
              | none => acc) accP cuts k).map FinanceExport.routeCutValue := by
  induction cuts with
  | nil =>
    intro accP accR h k
    exact h k
  | cons c rest ih =>
    intro accP accR h k
    rw [List.foldl_cons, List.foldl_cons]
    apply ih
    intro k2
    cases hc : c.band_member_id with
    | none =>
      simp only [hc]
      exact h k2
    | some id =>
      simp only [hc]
      by_cases hk : k2 = id
      · rw [if_pos hk, if_pos hk]
        rfl
      · rw [if_neg hk, if_neg hk]
        exact h k2

lemma cutByMemberId_route_eq_page (cuts : List CutRow) (k : String) :
    FinanceExport.cutByMemberId cuts k
      = (cutByMemberId cuts k).map FinanceExport.routeCutValue := by
  unfold FinanceExport.cutByMemberId SettlementPage.cutByMemberId
  exact cutByMemberId_agree cuts (fun _ => none) (fun _ => none) (fun _ => rfl) k

lemma resolveAux_route_eq_page :
    ∀ (members : List String) (cutF : String → Option CutRow) (stored : String → Option ℚ),
      (∀ m, stored m = (cutF m).map FinanceExport.routeCutValue) →
      ∀ (splits : List ℚ) (idx : ℕ),
        FinanceExport.resolvePercentsAux stored splits idx members
          = resolvePercentsAux cutF splits idx members := by
  intro members
  induction members with
  | nil =>
    intro _ _ _ _ _
    rfl
  | cons m rest ih =>
    intro cutF stored h splits idx
    show (stored m).getD (splits.getD idx 0) ::
        FinanceExport.resolvePercentsAux stored splits (idx + 1) rest
      = pageCutPercent (cutF m) (splits.getD idx 0) ::
        resolvePercentsAux cutF splits (idx + 1) rest
    rw [ih cutF stored h splits (idx + 1)]
    congr 1
    rw [h m]
    cases cutF m with
    | none => rfl
    | some c => rfl

/-- C9: the settlement page and the finance-export route implement the same
settlement computation: on identical income and expense totals, finance
settings, ordered active members and cut records, they produce the same
totals (manager fee, agent fee, gross fees, net after fees and expenses,
savings, distributable net), the same per-member percentages and the same
per-member payout minor-unit amounts. -/
theorem claim9_page_route_equivalence (inc exp : ℤ) (sp mp ap : ℚ)
    (members : List String) (cuts : List CutRow) :
    FinanceExport.computeTotals inc exp sp mp ap = computeTotals inc exp sp mp ap ∧
    (∀ count : ℕ, FinanceExport.makeEqualSplits count = makeEqualSplits count) ∧
    FinanceExport.resolvePercents members cuts = resolvePercents members cuts ∧
    (FinanceExport.resolvePercents members cuts).map
        (FinanceExport.payoutCents
          (FinanceExport.computeTotals inc exp sp mp ap).distributableNetCents)
      = (resolvePercents members cuts).map
        (payoutCents (computeTotals inc exp sp mp ap).distributableNetCents) := by
  have hres : FinanceExport.resolvePercents members cuts = resolvePercents members cuts := by
    unfold FinanceExport.resolvePercents SettlementPage.resolvePercents
    exact resolveAux_route_eq_page members (cutByMemberId cuts)
      (FinanceExport.cutByMemberId cuts) (cutByMemberId_route_eq_page cuts) _ 0
  refine ⟨rfl, fun _ => rfl, hres, ?_⟩
  rw [hres]
  rfl


lemma resolvePercentsAux_length (F : String → Option CutRow) (splits : List ℚ) :
    ∀ (members : List String) (idx : ℕ),
      (resolvePercentsAux F splits idx members).length = members.length := by
  intro members
  induction members with
  | nil =>
    intro idx
    rfl
  | cons m rest ih =>
    intro idx
    show (pageCutPercent (F m) (splits.getD idx 0) ::
        resolvePercentsAux F splits (idx + 1) rest).length = rest.length + 1
    rw [List.length_cons, ih (idx + 1)]

lemma resolvePercentsAux_of_overrides (splits : List ℚ) :
    ∀ (members : List String) (ps : List ℚ) (F : String → Option CutRow) (idx : ℕ),
      members.length = ps.length →
      (∀ mq ∈ members.zip ps, F mq.1 = some ⟨some mq.1, some mq.2, some mq.2⟩) →
      resolvePercentsAux F splits idx members = ps := by
  intro members
  induction members with
  | nil =>
    intro ps F idx hlen _
    cases ps with
    | nil => rfl
    | cons p ps2 => exact absurd hlen (by simp)
  | cons m rest ih =>
    intro ps F idx hlen hF
    cases ps with
    | nil => exact absurd hlen (by simp)
    | cons p ps2 =>
      have hm : F m = some ⟨some m, some p, some p⟩ := by
        apply hF (m, p)
        rw [List.zip_cons_cons]
        exact List.mem_cons_self _ _
      have htail : resolvePercentsAux F splits (idx + 1) rest = ps2 := by
        apply ih ps2 F (idx + 1)
        · simpa using hlen
        · intro mq hmq
          apply hF mq
          rw [List.zip_cons_cons]
          exact List.mem_cons_of_mem _ hmq
      show pageCutPercent (F m) (splits.getD idx 0) ::
          resolvePercentsAux F splits (idx + 1) rest = p :: ps2
      rw [hm, htail]
      rfl

lemma cutByMemberId_append_some (cuts : List CutRow) (id : String)
    (cp pp : Option ℚ) (k : String) :
    cutByMemberId (cuts ++ [⟨some id, cp, pp⟩]) k
      = if k = id then some ⟨some id, cp, pp⟩ else cutByMemberId cuts k := by
  unfold SettlementPage.cutByMemberId
  rw [List.foldl_append]
  rfl

lemma overridesMap_lookup :
    ∀ (pairs : List (String × ℚ)), (pairs.map Prod.fst).Nodup →
      ∀ (m : String) (q : ℚ), (m, q) ∈ pairs →
        cutByMemberId (pairs.map fun mq => CutRow.mk (some mq.1) (some mq.2) (some mq.2)) m
          = some ⟨some m, some q, some q⟩ := by
  intro pairs
  induction pairs using List.reverseRecOn with
  | nil =>
    intro _ m q hmem
    exact absurd hmem (List.not_mem_nil _)
  | append_singleton front last ih =>
    intro hnd m q hmem
    simp only [List.map_append, List.map_cons, List.map_nil]
    rw [cutByMemberId_append_some]
    have hnd2 : (front.map Prod.fst ++ [last.1]).Nodup := by
      simpa [List.map_append] using hnd
    rw [List.nodup_append] at hnd2
    obtain ⟨hndf, _, hdisj⟩ := hnd2
    rcases List.mem_append.mp hmem with hfront | hlast
    · have hm_in : m ∈ front.map Prod.fst := List.mem_map_of_mem Prod.fst hfront
      have hne : m ≠ last.1 := by
        intro he
        exact hdisj hm_in (by rw [he]; exact List.mem_singleton_self _)
      rw [if_neg hne]
      exact ih hndf m q hfront
    · have heq : last = (m, q) := (List.mem_singleton.mp hlast).symm
      rw [heq, if_pos rfl]

/-- C8: feeding the settlement page's own resolved percentages back in as
explicit cut overrides (one active cut row per member carrying that member's
displayed percentage) reproduces exactly the same resolved percentages, and
hence the identical per-member payout table for any distributable net. -/
theorem claim8_round_trip (members : List String) (cuts : List CutRow) (d : ℤ)
    (hnd : members.Nodup) :
    resolvePercents members
        ((members.zip (resolvePercents members cuts)).map
          (fun mq => CutRow.mk (some mq.1) (some mq.2) (some mq.2)))
      = resolvePercents members cuts ∧
    (resolvePercents members
        ((members.zip (resolvePercents members cuts)).map
          (fun mq => CutRow.mk (some mq.1) (some mq.2) (some mq.2)))).map
        (payoutCents d)
      = (resolvePercents members cuts).map (payoutCents d) := by
  have hlen : (resolvePercents members cuts).length = members.length :=
    resolvePercentsAux_length _ _ members 0
  have hkeys : ((members.zip (resolvePercents members cuts)).map Prod.fst).Nodup := by
    rw [List.map_fst_zip _ _ (le_of_eq hlen.symm)]
    exact hnd
  have hmain : resolvePercents members
      ((members.zip (resolvePercents members cuts)).map
        (fun mq => CutRow.mk (some mq.1) (some mq.2) (some mq.2)))
      = resolvePercents members cuts := by
    apply resolvePercentsAux_of_overrides (makeEqualSplits members.length) members
      (resolvePercents members cuts) _ 0 hlen.symm
    intro mq hmq
    apply overridesMap_lookup (members.zip (resolvePercents members cuts)) hkeys mq.1 mq.2
    rw [Prod.mk.eta]
    exact hmq
  exact ⟨hmain, by rw [hmain]⟩

/-- Witness for C8: the round trip at one member with no cut rows and a
distributable net of 12345 minor units, with the no-duplicates hypothesis
discharged. -/
theorem claim8_round_trip_witness :
    resolvePercents ["a"]
        (((["a"] : List String).zip (resolvePercents ["a"] [])).map
          (fun mq => CutRow.mk (some mq.1) (some mq.2) (some mq.2)))
      = resolvePercents ["a"] [] ∧
    (resolvePercents ["a"]
        (((["a"] : List String).zip (resolvePercents ["a"] [])).map
          (fun mq => CutRow.mk (some mq.1) (some mq.2) (some mq.2)))).map
        (payoutCents 12345)
      = (resolvePercents ["a"] []).map (payoutCents 12345) :=
  claim8_round_trip ["a"] [] 12345 (by simp)

end BackLine
